import Mathlib

/-!
Verification development for the compose-unpacker deployment tool.

The Go sources are shallowly embedded as Lean functions:

* pure string/path helpers (`strings.HasPrefix`, `strings.Split`,
  `strings.ReplaceAll`, `filepath.Clean`, `filepath.Dir`, `filepath.Base`,
  `filepath.Join`, `filepath.Match`, `sort.Strings`) become executable Lean
  functions over `String` / `List Char`;
* `findRootPaths`, `sopsDecrypt`, `dockerLogin`, `dockerLogout`,
  `makeWorkingDir` (src/deploy.go) and the four command `Run` methods
  (src/deploy.go, src/unnamed/part_001, src/undeploy.go) become functions
  from a command value and an environment of external-call outcomes to a
  trace of observable external effects (`Event`) plus a returned Go error;
* external calls (git clone, os.Stat/RemoveAll/MkdirAll, compose deploy,
  docker CLI invocations, the SOPS binary, `filepath.WalkDir` results) are
  oracles supplied by the environment structures.

Paths are modelled with Unix separators (`runtime.GOOS != "windows"`),
matching the platform the tool targets.  All definitions are structural
recursions so that concrete runs evaluate inside the kernel.
-/

/-- Go `error` values, compared by identity as Go does: `errors.New` at
src/deploy.go:24 yields the distinguished `deployComposeFailure` value,
`errors.New(stderr.String())` in `runCommandAndCaptureStdErr` yields
`raw`, and `fmt.Errorf("... %w", err)` yields `wrapped`. -/
inductive GoError where
  | deployComposeFailure
  | raw (msg : String)
  | wrapped (msg : String) (inner : GoError)
deriving DecidableEq, Repr

/-- Lexicographic byte order on character lists; models Go's string
comparison used by `sort.Strings` (UTF-8 byte order coincides with
code-point order). -/
def lexLe : List Char → List Char → Bool
  | [], _ => true
  | _ :: _, [] => false
  | a :: as, b :: bs => if a < b then true else if a = b then lexLe as bs else false

/-- Model of Go string comparison `a <= b` (for `sort.Strings`). -/
def goStrLe (a b : String) : Bool := lexLe a.toList b.toList

/-- Model of Go `strings.HasPrefix(s, pre)`. -/
def goHasPre (s pre : String) : Bool := pre.toList.isPrefixOf s.toList

/-- Model of Go `strings.HasSuffix(s, suf)` (also `String.endsWith`). -/
def goHasSuf (s suf : String) : Bool := suf.toList.isSuffixOf s.toList

/-- Model of Go `strings.TrimSuffix`. -/
def goTrimSuffix (s suf : String) : String :=
  if goHasSuf s suf then String.mk (s.toList.take (s.toList.length - suf.toList.length)) else s

/-- Index of the last occurrence of a character; models `strings.LastIndex`
with a one-character separator (and the separator scan in `filepath.Dir`):
`none` plays the role of Go's `-1`. -/
def goLastIdx (c : Char) : List Char → Option Nat
  | [] => none
  | x :: rest =>
    match goLastIdx c rest with
    | some i => some (i + 1)
    | none => if x = c then some 0 else none

/-- Split a character list at every occurrence of `sep`; models Go
`strings.Split` with a one-character separator (and the `/`-splitting done
by `filepath.Clean` elementwise). -/
def splitOnChar (sep : Char) : List Char → List (List Char)
  | [] => [[]]
  | c :: rest =>
    let r := splitOnChar sep rest
    if c = sep then [] :: r
    else
      match r with
      | [] => [[c]]
      | h :: t => (c :: h) :: t

/-- Model of Go `strings.Split` with a one-character separator. -/
def goSplit (sep : Char) (s : String) : List String :=
  (splitOnChar sep s.toList).map String.mk

/-- Join components with a separator character (the element joining inside
`filepath.Clean` / `filepath.Join`). -/
def joinComps (sep : Char) : List (List Char) → List Char
  | [] => []
  | [c] => c
  | c :: rest => c ++ sep :: joinComps sep rest

/-- Stack step of `filepath.Clean`: processes the remaining path elements
against the (reversed) stack of kept elements, resolving `..` (which pops
a kept element, stacks after a stacked `..`, and drops at the root). -/
def cleanComps (rooted : Bool) : List (List Char) → List (List Char) → List (List Char)
  | acc, [] => acc.reverse
  | acc, c :: rest =>
    if c = ['.', '.'] then
      match acc with
      | [] => if rooted then cleanComps rooted [] rest else cleanComps rooted [['.', '.']] rest
      | a :: as =>
        if a = ['.', '.'] then cleanComps rooted (['.', '.'] :: a :: as) rest
        else cleanComps rooted as rest
    else cleanComps rooted (c :: acc) rest

/-- Model of Go `filepath.Clean` (Unix rules): the empty path cleans to
`.`, multiple separators collapse, `.` elements drop, `..` elements
resolve against the prefix (and drop at the root). -/
def goClean (p : String) : String :=
  match p.toList with
  | [] => "."
  | c :: rest =>
    let rooted := c = '/'
    let comps := (splitOnChar '/' (c :: rest)).filter (fun comp => comp ≠ [] && comp ≠ ['.'])
    match cleanComps (if rooted then true else false) [] comps with
    | [] => if rooted then "/" else "."
    | out1 :: outRest =>
      (if rooted then "/" else "") ++ String.mk (joinComps '/' (out1 :: outRest))

/-- Model of Go `filepath.Dir` (Unix): everything up to and including the
last separator, cleaned; `.` when there is no separator. -/
def goDir (p : String) : String :=
  match goLastIdx '/' p.toList with
  | none => goClean ""
  | some i => goClean (String.mk (p.toList.take (i + 1)))

/-- Model of Go `filepath.Base` (Unix): `.` for the empty path, trailing
separators stripped, then the part after the last separator (`/` when the
path consists only of separators). -/
def goBase (p : String) : String :=
  match p.toList with
  | [] => "."
  | c :: rest =>
    match ((c :: rest).reverse.dropWhile (fun ch => ch = '/')).reverse with
    | [] => "/"
    | d :: ds =>
      match goLastIdx '/' (d :: ds) with
      | none => String.mk (d :: ds)
      | some i => String.mk ((d :: ds).drop (i + 1))

/-- Model of Go `path.Join` / `filepath.Join` (Unix): drop empty elements,
join the rest with `/`, then clean; all-empty input joins to the empty
string. -/
def goJoin (elems : List String) : String :=
  match (elems.filter (fun e => e ≠ "")).map String.toList with
  | [] => ""
  | ne1 :: neRest => goClean (String.mk (joinComps '/' (ne1 :: neRest)))

/-- Embeds `makeWorkingDir` (src/deploy.go:515, src/unnamed/part_001:387):
`filepath.Join(target, "stacks", stackName)`. -/
def makeWorkingDir (target stackName : String) : String :=
  goJoin [target, "stacks", stackName]

/-- Go `sort.Strings` sorts in ascending lexicographic byte order.  The
order is total and antisymmetric, so the sorted permutation is unique and
any sorting algorithm is a faithful model; insertion sort is used because
it evaluates by kernel reduction. -/
def sortStrings (l : List String) : List String :=
  List.insertionSort (fun a b => goStrLe a b = true) l

/-- The loop of `findRootPaths` (src/deploy.go:395-400): walk the sorted
folder paths, skipping every path that has the most recently kept root as
a string prefix (`strings.HasPrefix`), appending it as a new root
otherwise.  `last` is the most recently kept root. -/
def rootPathsLoop : List String → String → List String
  | [], _ => []
  | p :: rest, last =>
    if goHasPre p last then rootPathsLoop rest last else p :: rootPathsLoop rest p

/-- Embeds `findRootPaths` (src/deploy.go:371-403): empty input yields an
empty list; otherwise the inputs' parent directories are cleaned, sorted
(`sort.Strings`), the first is kept, and the loop skips consecutive paths
that start with the previously kept root.  The Go loop runs from index 0;
its first iteration always skips `folderPaths[0]` (a string is a prefix of
itself), which the embedding mirrors by running the loop on the full
sorted list with `last` equal to its head. -/
def findRootPaths (filePaths : List String) : List String :=
  match filePaths with
  | [] => []
  | _ :: _ =>
    match sortStrings (filePaths.map (fun f => goClean (goDir f))) with
    | [] => []
    | f0 :: rest => f0 :: rootPathsLoop (f0 :: rest) f0

/-- Path-descendant test used to state the spec's containment properties:
`d` lies strictly below directory `r` when it extends `r` past a
separator (or extends a `/`-terminated `r`, covering the root `/`). -/
def isPathDescendantOf (d r : String) : Bool :=
  (d != r) && goHasPre d (if goHasSuf r "/" then r else r ++ "/")

/-- Suffixes of `s` reachable from its start by consuming zero or more
non-separator characters; a separator stops the scan (`*` in
`filepath.Match` never matches `/`). -/
def starSplits : List Char → List (List Char)
  | [] => [[]]
  | c :: rest => (c :: rest) :: (if c = '/' then [] else starSplits rest)

/-- Model of Go `filepath.Match` for patterns built from literal
characters and `*` (the only forms occurring in the pattern `*.sops.*`
that `sopsDecrypt` passes at src/deploy.go:318): `*` matches any run of
non-separator characters. -/
def globMatch : List Char → List Char → Bool
  | [], s => s.isEmpty
  | '*' :: p, s => (starSplits s).any (fun t => globMatch p t)
  | _ :: _, [] => false
  | c :: p, d :: s => c == d && globMatch p s

/-- Model of Go `strings.ReplaceAll` for a non-empty pattern: scan left to
right, replacing each non-overlapping occurrence of `pat` and resuming
after the replaced segment.  The `Nat` argument is recursion fuel; it is
always instantiated with the length of the scanned list, which bounds the
number of scan steps. -/
def replaceAllFuel (pat rep : List Char) : Nat → List Char → List Char
  | _, [] => []
  | 0, s => s
  | fuel + 1, c :: rest =>
    if !pat.isEmpty && pat.isPrefixOf (c :: rest) then
      rep ++ replaceAllFuel pat rep fuel ((c :: rest).drop pat.length)
    else c :: replaceAllFuel pat rep fuel rest

/-- Model of Go `strings.ReplaceAll(s, old, new)` (src/deploy.go:340 uses
it with the non-empty pattern `".sops."`). -/
def goReplaceAll (s old new : String) : String :=
  String.mk (replaceAllFuel old.toList new.toList s.toList.length s.toList)

/-- Registry credential triple as passed to the compose deployer
(src/unnamed/part_001:126-130, shape of `types.AuthConfig`). -/
structure AuthConfig where
  Username : String
  Password : String
  ServerAddress : String
deriving DecidableEq, Repr

/-- Parameter shape of the external compose deploy call
(`libstack.DeployOptions` with its embedded `libstack.Options`), as filled
in by the `Run` methods. -/
structure DeployOptions where
  WorkingDir : String
  ProjectName : String
  Env : List String
  Registries : List AuthConfig
  ForceRecreate : Bool
  RemoveOrphans : Bool
deriving DecidableEq, Repr

/-- Observable external effects of a run, in execution order.  Constant
arguments that never vary (the docker `--config` path, the binary search
path) are elided. -/
inductive Event where
  | loginBad (registry : String)
  | loginInvoke (user : String) (pass : String) (server : String)
  | loginWarn (server : String)
  | loginOk (server : String)
  | logoutBad (registry : String)
  | logoutInvoke (server : String)
  | logoutWarn (server : String)
  | logoutOk (server : String)
  | registrySkipped (registry : String)
  | removeWorkspace (dir : String)
  | mkdirWorkspace (dir : String)
  | gitClone (url : String) (ref : String) (clonePath : String) (depth : Nat) (skipTLS : Bool)
  | sopsRun (workingDir : String) (args : List String) (env : List String)
  | composeDeploy (paths : List String) (opts : DeployOptions)
  | swarmDeploy (clonePath : String)
  | queryServices (project : String)
  | logForceUpdate
  | updateService (serviceID : String) (force : Bool)
  | composeRemove (project : String)
  | stackRm (project : String)
deriving DecidableEq, Repr

/-- Registry-session events (the ones `dockerLogin` / `dockerLogout` can
produce). -/
def isRegistryEvent : Event → Bool
  | .loginBad _ => true
  | .loginInvoke _ _ _ => true
  | .loginWarn _ => true
  | .loginOk _ => true
  | .logoutBad _ => true
  | .logoutInvoke _ => true
  | .logoutWarn _ => true
  | .logoutOk _ => true
  | _ => false

/-- Events that delete, recreate or repopulate the workspace directory:
`os.RemoveAll(mountPath)`, `os.MkdirAll(mountPath)` and the git clone. -/
def touchesWorkspace : Event → Bool
  | .removeWorkspace _ => true
  | .mkdirWorkspace _ => true
  | .gitClone _ _ _ _ _ => true
  | _ => false

/-- One `filepath.WalkDir` visit: the visited path, whether the entry is a
directory, and whether the walk reported an error for it (in which case
the callback at src/deploy.go:309-315 logs and skips it). -/
structure WalkEntry where
  path : String
  isDir : Bool
  visitErr : Bool
deriving DecidableEq, Repr

/-- The `fs.DirEntry.Name()` of a walked path is its base name. -/
def WalkEntry.name (e : WalkEntry) : String := goBase e.path

/-- The SOPS file collection of `sopsDecrypt` (src/deploy.go:302-333):
walk every root folder, keeping non-directory entries without a walk
error whose base name matches `*.sops.*`.  `walk` is the filesystem
oracle giving the `WalkDir` visit list of a root. -/
def sopsCollect (walk : String → List WalkEntry) (roots : List String) : List String :=
  roots.flatMap fun root =>
    ((walk root).filter fun e =>
      !e.visitErr && !e.isDir && globMatch "*.sops.*".toList e.name.toList).map WalkEntry.path

/-- The decryption loop of `sopsDecrypt` (src/deploy.go:337-358): for each
collected file, run the SOPS binary with working directory the file's
folder and arguments `--output <name with ".sops." dropped> --decrypt
<name>`; the first failing invocation aborts with the captured stderr as
the error. `stderrOf` is the outcome oracle of
`runCommandAndCaptureStdErr`. -/
def sopsRunLoop (stderrOf : String → Option String) (env : List String) :
    List String → List Event → List Event × Option GoError
  | [], acc => (acc, none)
  | fp :: rest, acc =>
    let sopsFileName := goBase fp
    let outputFileName := goReplaceAll sopsFileName ".sops." "."
    let ev := Event.sopsRun (goDir fp) ["--output", outputFileName, "--decrypt", sopsFileName] env
    match stderrOf fp with
    | some s => (acc ++ [ev], some (GoError.raw s))
    | none => sopsRunLoop stderrOf env rest (acc ++ [ev])

/-- Embeds `sopsDecrypt` (src/deploy.go:298-361): compute the root folders
of the compose files, collect `*.sops.*` files under them, and decrypt
each in place. -/
def sopsDecrypt (walk : String → List WalkEntry) (stderrOf : String → Option String)
    (composeFilePaths : List String) (env : List String) : List Event × Option GoError :=
  sopsRunLoop stderrOf env (sopsCollect walk (findRootPaths composeFilePaths)) []

/-- The loop of `dockerLogin` (src/deploy.go:405-434, identical in
src/unnamed/part_001:276-304): split each credential string on `:`; a
string that does not give exactly three segments is skipped with a
warning; otherwise `docker login` runs, and an individual failure
(`fails` oracle) is logged and skipped.  The function always returns
`nil`. -/
def dockerLoginLoop (fails : String → Bool) :
    List String → List Event → List Event × Option GoError
  | [], acc => (acc, none)
  | registry :: rest, acc =>
    let credentials := goSplit ':' registry
    if credentials.length ≠ 3 then
      dockerLoginLoop fails rest (acc ++ [Event.loginBad registry])
    else
      let u := credentials.getD 0 ""
      let pw := credentials.getD 1 ""
      let server := credentials.getD 2 ""
      if fails server then
        dockerLoginLoop fails rest (acc ++ [Event.loginInvoke u pw server, Event.loginWarn server])
      else
        dockerLoginLoop fails rest (acc ++ [Event.loginInvoke u pw server, Event.loginOk server])

/-- Embeds `dockerLogin` (src/deploy.go:405-434). -/
def dockerLogin (fails : String → Bool) (registries : List String) :
    List Event × Option GoError :=
  dockerLoginLoop fails registries []

/-- The loop of `dockerLogout` (src/deploy.go:436-465, identical in
src/unnamed/part_001:306-334): mirror of the login loop with `docker
logout <server>`. -/
def dockerLogoutLoop (fails : String → Bool) :
    List String → List Event → List Event × Option GoError
  | [], acc => (acc, none)
  | registry :: rest, acc =>
    let credentials := goSplit ':' registry
    if credentials.length ≠ 3 then
      dockerLogoutLoop fails rest (acc ++ [Event.logoutBad registry])
    else
      let server := credentials.getD 2 ""
      if fails server then
        dockerLogoutLoop fails rest (acc ++ [Event.logoutInvoke server, Event.logoutWarn server])
      else
        dockerLogoutLoop fails rest (acc ++ [Event.logoutInvoke server, Event.logoutOk server])

/-- Embeds `dockerLogout` (src/deploy.go:436-465). -/
def dockerLogout (fails : String → Bool) (registries : List String) :
    List Event × Option GoError :=
  dockerLogoutLoop fails registries []

/-- Modelled from the spec: the Deployment Request (spec §3) consumed by
the single-engine deploy command.  The CLI structure definition lives
outside src/; the fields are exactly those the `Run` methods read. -/
structure DeployCommand where
  GitRepository : String
  Reference : String
  ProjectName : String
  Destination : String
  User : String
  Password : String
  ComposeRelativeFilePaths : List String
  Env : List String
  Registry : List String
  Keep : Bool
  SkipTLSVerify : Bool
  ForceRecreateStack : Bool
  Prune : Bool
deriving Repr

/-- Modelled from the spec: the Deployment Request (spec §3) consumed by
the clustered-mode deploy command; same provenance as `DeployCommand`. -/
structure SwarmDeployCommand where
  GitRepository : String
  Reference : String
  ProjectName : String
  Destination : String
  User : String
  Password : String
  ComposeRelativeFilePaths : List String
  Env : List String
  Registry : List String
  Keep : Bool
  SkipTLSVerify : Bool
  ForceRecreateStack : Bool
deriving Repr

/-- Modelled from the spec: the request consumed by the single-engine
undeploy command (spec §3, §4.7). -/
structure UndeployCommand where
  GitRepository : String
  ProjectName : String
  Destination : String
  ComposeRelativeFilePaths : List String
  Keep : Bool
deriving Repr

/-- Modelled from the spec: the request consumed by the clustered-mode
undeploy command (spec §4.7). -/
structure SwarmUndeployCommand where
  ProjectName : String
  Destination : String
  Keep : Bool
deriving Repr

/-- The workspace preparation and clone block shared verbatim by the
deploy `Run` methods (src/deploy.go:63-109 and 214-259,
src/unnamed/part_001:56-99 and 208-252): skipped entirely under `keep`;
otherwise `os.Stat(mountPath)` (oracle `mountExists`), `os.RemoveAll`
when it exists, `os.MkdirAll`, and `git.PlainCloneContext`, each failure
fatal with the generic deployment error. -/
def workspaceStage (keep mountExists removeAllFails mkdirFails cloneFails : Bool)
    (mountPath : String) (cloneEv : Event) : List Event × Option GoError :=
  if !keep then
    if mountExists then
      if removeAllFails then
        ([Event.removeWorkspace mountPath], some GoError.deployComposeFailure)
      else if mkdirFails then
        ([Event.removeWorkspace mountPath, Event.mkdirWorkspace mountPath],
          some GoError.deployComposeFailure)
      else if cloneFails then
        ([Event.removeWorkspace mountPath, Event.mkdirWorkspace mountPath, cloneEv],
          some GoError.deployComposeFailure)
      else
        ([Event.removeWorkspace mountPath, Event.mkdirWorkspace mountPath, cloneEv], none)
    else
      if mkdirFails then
        ([Event.mkdirWorkspace mountPath], some GoError.deployComposeFailure)
      else if cloneFails then
        ([Event.mkdirWorkspace mountPath, cloneEv], some GoError.deployComposeFailure)
      else
        ([Event.mkdirWorkspace mountPath, cloneEv], none)
  else ([], none)

/-- External-call outcomes for `DeployCommand.Run` of src/deploy.go. -/
structure ComposeEnvA where
  loginFails : String → Bool
  logoutFails : String → Bool
  mountExists : Bool
  removeAllFails : Bool
  mkdirFails : Bool
  cloneFails : Bool
  newDeployerFails : Bool
  walk : String → List WalkEntry
  sopsStderr : String → Option String
  deployFails : Bool

/-- Embeds `(cmd *DeployCommand) Run` from src/deploy.go:26-156: defer
registry logout, registry login, repository-URL check, workspace
preparation and shallow clone (depth 1) unless `keep`, compose deployer
construction, SOPS decryption of the resolved compose paths, and the
compose deploy call with `ForceRecreate` hard-coded to `true`.  The
deferred `dockerLogout` trace is appended on every return path. -/
def DeployCommandRunA (cmd : DeployCommand) (env : ComposeEnvA) :
    List Event × Option GoError :=
  let logoutT := (dockerLogout env.logoutFails cmd.Registry).1
  let login := dockerLogin env.loginFails cmd.Registry
  match login.2 with
  | some e => (login.1 ++ logoutT, some e)
  | none =>
    match goLastIdx '/' cmd.GitRepository.toList with
    | none => (login.1 ++ logoutT, some GoError.deployComposeFailure)
    | some i =>
      let repositoryName :=
        goTrimSuffix (String.mk (cmd.GitRepository.toList.drop (i + 1))) ".git"
      let mountPath := makeWorkingDir cmd.Destination cmd.ProjectName
      let clonePath := goJoin [mountPath, repositoryName]
      let ws := workspaceStage cmd.Keep env.mountExists env.removeAllFails env.mkdirFails
        env.cloneFails mountPath
        (Event.gitClone cmd.GitRepository cmd.Reference clonePath 1 cmd.SkipTLSVerify)
      match ws.2 with
      | some e => (login.1 ++ ws.1 ++ logoutT, some e)
      | none =>
        if env.newDeployerFails then
          (login.1 ++ ws.1 ++ logoutT, some GoError.deployComposeFailure)
        else
          let composeFilePaths :=
            cmd.ComposeRelativeFilePaths.map (fun p => goJoin [clonePath, p])
          let sops := sopsDecrypt env.walk env.sopsStderr composeFilePaths cmd.Env
          match sops.2 with
          | some _ =>
            (login.1 ++ ws.1 ++ sops.1 ++ logoutT, some GoError.deployComposeFailure)
          | none =>
            let depEv := Event.composeDeploy composeFilePaths
              { WorkingDir := clonePath, ProjectName := cmd.ProjectName, Env := cmd.Env,
                Registries := [], ForceRecreate := true, RemoveOrphans := false }
            if env.deployFails then
              (login.1 ++ ws.1 ++ sops.1 ++ [depEv] ++ logoutT,
                some GoError.deployComposeFailure)
            else
              (login.1 ++ ws.1 ++ sops.1 ++ [depEv] ++ logoutT, none)

/-- External-call outcomes for `DeployCommand.Run` of
src/unnamed/part_001. -/
structure ComposeEnvB where
  mountExists : Bool
  removeAllFails : Bool
  mkdirFails : Bool
  cloneFails : Bool
  deployFails : Bool

/-- The registry-credential translation loop of src/unnamed/part_001:
114-131: split each credential string on `:`; a string without exactly
three segments is skipped with a warning, the rest become
`types.AuthConfig` entries. -/
def parseRegistriesLoop : List String → List Event × List AuthConfig
  | [] => ([], [])
  | registry :: rest =>
    let credentials := goSplit ':' registry
    let r := parseRegistriesLoop rest
    if credentials.length ≠ 3 then
      (Event.registrySkipped registry :: r.1, r.2)
    else
      (r.1,
        { Username := credentials.getD 0 "", Password := credentials.getD 1 "",
          ServerAddress := credentials.getD 2 "" } :: r.2)

/-- Embeds `(cmd *DeployCommand) Run` from src/unnamed/part_001:26-151:
repository-URL check, workspace preparation and shallow clone (depth 1,
no tags) unless `keep`, registry-credential translation, and the compose
deploy call that passes `ForceRecreate` and `RemoveOrphans` straight from
the request's `ForceRecreateStack` and `Prune` flags.  This version opens
no registry session. -/
def DeployCommandRunB (cmd : DeployCommand) (env : ComposeEnvB) :
    List Event × Option GoError :=
  match goLastIdx '/' cmd.GitRepository.toList with
  | none => ([], some GoError.deployComposeFailure)
  | some i =>
    let repositoryName :=
      goTrimSuffix (String.mk (cmd.GitRepository.toList.drop (i + 1))) ".git"
    let mountPath := makeWorkingDir cmd.Destination cmd.ProjectName
    let clonePath := goJoin [mountPath, repositoryName]
    let ws := workspaceStage cmd.Keep env.mountExists env.removeAllFails env.mkdirFails
      env.cloneFails mountPath
      (Event.gitClone cmd.GitRepository cmd.Reference clonePath 1 cmd.SkipTLSVerify)
    match ws.2 with
    | some e => (ws.1, some e)
    | none =>
      let composeFilePaths :=
        cmd.ComposeRelativeFilePaths.map (fun p => goJoin [clonePath, p])
      let reg := parseRegistriesLoop cmd.Registry
      let depEv := Event.composeDeploy composeFilePaths
        { WorkingDir := clonePath, ProjectName := cmd.ProjectName, Env := cmd.Env,
          Registries := reg.2, ForceRecreate := cmd.ForceRecreateStack,
          RemoveOrphans := cmd.Prune }
      if env.deployFails then
        (ws.1 ++ reg.1 ++ [depEv], some GoError.deployComposeFailure)
      else
        (ws.1 ++ reg.1 ++ [depEv], none)

/-- External-call outcomes for `SwarmDeployCommand.Run`
(src/unnamed/part_001).  `checkRunningService` and `deploySwarmStack` are
not under src/; modelled from the spec (§4.5, §4.6, §7) they query the
running service identifiers of a project (respectively run `docker stack
deploy`) and surface their failures as the generic stack deployment
failure, so their oracles are a failure flag plus the identifier lists. -/
structure SwarmEnv where
  loginFails : String → Bool
  logoutFails : String → Bool
  preFails : Bool
  preIDs : List String
  mountExists : Bool
  removeAllFails : Bool
  mkdirFails : Bool
  cloneFails : Bool
  swarmDeployFails : Bool
  postFails : Bool
  postIDs : List String

/-- The forced-update loop of `SwarmDeployCommand.Run`
(src/unnamed/part_001:266-270): for every service identifier of the
post-deploy query, issue `updateService` when the identifier was also in
the pre-deploy snapshot (`runningServices` map membership); individual
update failures are discarded. -/
def swarmUpdateLoop (pre : List String) (force : Bool) : List String → List Event
  | [] => []
  | id :: rest =>
    if pre.contains id then Event.updateService id force :: swarmUpdateLoop pre force rest
    else swarmUpdateLoop pre force rest

/-- Embeds `(cmd *SwarmDeployCommand) Run` from
src/unnamed/part_001:153-274: registry login (wrapped error on failure,
before the logout defer is installed), deferred registry logout,
repository-URL check, pre-deploy running-service snapshot, the
force-update decision `forceUpdate := cmd.ForceRecreateStack &&
len(runningServices) > 0` (logging "Set to force update" when true),
workspace preparation and clone unless `keep`, `deploySwarmStack`, and —
only when `forceUpdate` — the post-deploy snapshot and the per-service
forced updates for identifiers present in both snapshots. -/
def SwarmDeployCommandRun (cmd : SwarmDeployCommand) (env : SwarmEnv) :
    List Event × Option GoError :=
  let login := dockerLogin env.loginFails cmd.Registry
  match login.2 with
  | some e =>
    (login.1, some (GoError.wrapped "an error occured in swarm docker login" e))
  | none =>
    let logoutT := (dockerLogout env.logoutFails cmd.Registry).1
    match goLastIdx '/' cmd.GitRepository.toList with
    | none => (login.1 ++ logoutT, some GoError.deployComposeFailure)
    | some i =>
      let repositoryName :=
        goTrimSuffix (String.mk (cmd.GitRepository.toList.drop (i + 1))) ".git"
      let mountPath := makeWorkingDir cmd.Destination cmd.ProjectName
      let clonePath := goJoin [mountPath, repositoryName]
      let preQ := [Event.queryServices cmd.ProjectName]
      if env.preFails then
        (login.1 ++ preQ ++ logoutT, some GoError.deployComposeFailure)
      else
        let forceUpdate := cmd.ForceRecreateStack && !env.preIDs.isEmpty
        let decideT := preQ ++ (if forceUpdate then [Event.logForceUpdate] else [])
        let ws := workspaceStage cmd.Keep env.mountExists env.removeAllFails env.mkdirFails
          env.cloneFails mountPath
          (Event.gitClone cmd.GitRepository cmd.Reference clonePath 1 cmd.SkipTLSVerify)
        match ws.2 with
        | some e => (login.1 ++ decideT ++ ws.1 ++ logoutT, some e)
        | none =>
          let depT := decideT ++ ws.1 ++ [Event.swarmDeploy clonePath]
          if env.swarmDeployFails then
            (login.1 ++ depT ++ logoutT, some GoError.deployComposeFailure)
          else
            if forceUpdate then
              let postT := depT ++ [Event.queryServices cmd.ProjectName]
              if env.postFails then
                (login.1 ++ postT ++ logoutT, some GoError.deployComposeFailure)
              else
                (login.1 ++ postT ++ swarmUpdateLoop env.preIDs forceUpdate env.postIDs
                  ++ logoutT, none)
            else
              (login.1 ++ depT ++ logoutT, none)

/-- External-call outcomes for the undeploy runs of src/undeploy.go:
whether the compose `Remove` (respectively `docker stack rm`) call fails,
and whether the workspace removal fails (logged only). -/
structure UndeployEnv where
  removeFails : Bool
  removeAllFails : Bool

/-- Embeds `(cmd *UndeployCommand) Run` from src/undeploy.go:14-54:
repository-URL check, compose stack removal by project name (failure is
the generic deployment error), then workspace removal unless `keep`,
whose failure is logged and adds nothing to the returned error. -/
def UndeployCommandRun (cmd : UndeployCommand) (env : UndeployEnv) :
    List Event × Option GoError :=
  match goLastIdx '/' cmd.GitRepository.toList with
  | none => ([], some GoError.deployComposeFailure)
  | some _ =>
    let mountPath := makeWorkingDir cmd.Destination cmd.ProjectName
    if env.removeFails then
      ([Event.composeRemove cmd.ProjectName], some GoError.deployComposeFailure)
    else
      ([Event.composeRemove cmd.ProjectName]
        ++ (if !cmd.Keep then [Event.removeWorkspace mountPath] else []), none)

/-- External-call outcomes for `SwarmUndeployCommand.Run`: the stderr
captured from a failing `docker stack rm` (the error value then is
`errors.New(stderr.String())` from `runCommandAndCaptureStdErr`,
src/deploy.go:478-481), and the workspace removal outcome. -/
structure SwarmUndeployEnv where
  stackRmStderr : Option String
  removeAllFails : Bool

/-- Embeds `(cmd *SwarmUndeployCommand) Run` from src/undeploy.go:56-83:
`docker stack rm <project>`; a failure returns the raw captured-stderr
error unchanged; then workspace removal unless `keep`, whose failure is
logged only. -/
def SwarmUndeployCommandRun (cmd : SwarmUndeployCommand) (env : SwarmUndeployEnv) :
    List Event × Option GoError :=
  match env.stackRmStderr with
  | some s => ([Event.stackRm cmd.ProjectName], some (GoError.raw s))
  | none =>
    let mountPath := makeWorkingDir cmd.Destination cmd.ProjectName
    ([Event.stackRm cmd.ProjectName]
      ++ (if !cmd.Keep then [Event.removeWorkspace mountPath] else []), none)

/-- Events produced for a single registry credential string by the
`dockerLogin` loop (used to state the loop's behaviour). -/
def loginEventsOf (fails : String → Bool) (registry : String) : List Event :=
  let credentials := goSplit ':' registry
  if credentials.length ≠ 3 then [Event.loginBad registry]
  else
    let server := credentials.getD 2 ""
    if fails server then
      [Event.loginInvoke (credentials.getD 0 "") (credentials.getD 1 "") server,
        Event.loginWarn server]
    else
      [Event.loginInvoke (credentials.getD 0 "") (credentials.getD 1 "") server,
        Event.loginOk server]

/-- Events produced for a single registry credential string by the
`dockerLogout` loop. -/
def logoutEventsOf (fails : String → Bool) (registry : String) : List Event :=
  let credentials := goSplit ':' registry
  if credentials.length ≠ 3 then [Event.logoutBad registry]
  else
    let server := credentials.getD 2 ""
    if fails server then [Event.logoutInvoke server, Event.logoutWarn server]
    else [Event.logoutInvoke server, Event.logoutOk server]

theorem lexLe_refl (l : List Char) : lexLe l l = true := by
  induction l with
  | nil => rfl
  | cons a as ih => simp [lexLe, ih]

theorem lexLe_total : ∀ (a b : List Char), lexLe a b = true ∨ lexLe b a = true
  | [], _ => Or.inl rfl
  | _ :: _, [] => Or.inr rfl
  | x :: as, y :: bs => by
    rcases lt_trichotomy x y with h | h | h
    · left; simp [lexLe, h]
    · subst h
      rcases lexLe_total as bs with h2 | h2
      · left; simp [lexLe, h2]
      · right; simp [lexLe, h2]
    · right; simp [lexLe, h]

theorem lexLe_trans : ∀ (a b c : List Char),
    lexLe a b = true → lexLe b c = true → lexLe a c = true
  | [], _, _, _, _ => rfl
  | _ :: _, [], _, h1, _ => by simp [lexLe] at h1
  | _ :: _, _ :: _, [], _, h2 => by simp [lexLe] at h2
  | x :: as, y :: bs, z :: cs, h1, h2 => by
    simp only [lexLe] at h1 h2 ⊢
    by_cases hxy : x < y
    · by_cases hyz : y < z
      · simp [lt_trans hxy hyz]
      · rw [if_neg hyz] at h2
        by_cases heq : y = z
        · subst heq; simp [hxy]
        · simp [heq] at h2
    · rw [if_neg hxy] at h1
      by_cases hxey : x = y
      · subst hxey
        rw [if_pos rfl] at h1
        by_cases hxz : x < z
        · simp [hxz]
        · rw [if_neg hxz] at h2 ⊢
          by_cases hxez : x = z
          · rw [if_pos hxez] at h2 ⊢
            exact lexLe_trans as bs cs h1 h2
          · simp [hxez] at h2
      · simp [hxey] at h1

theorem lexLe_antisymm : ∀ (a b : List Char),
    lexLe a b = true → lexLe b a = true → a = b
  | [], [], _, _ => rfl
  | [], _ :: _, _, h2 => by simp [lexLe] at h2
  | _ :: _, [], h1, _ => by simp [lexLe] at h1
  | x :: as, y :: bs, h1, h2 => by
    simp only [lexLe] at h1 h2
    by_cases hxy : x < y
    · rw [if_neg (asymm hxy), if_neg (ne_of_gt hxy)] at h2
      exact absurd h2 (by simp)
    · rw [if_neg hxy] at h1
      by_cases hxey : x = y
      · subst hxey
        rw [if_pos rfl] at h1
        rw [if_neg hxy, if_pos rfl] at h2
        rw [lexLe_antisymm as bs h1 h2]
      · simp [hxey] at h1

theorem isPrefixOf_self (l : List Char) : l.isPrefixOf l = true := by
  induction l with
  | nil => rfl
  | cons a as ih => simp [List.isPrefixOf, ih]

theorem isPrefixOf_lexLe : ∀ (a b : List Char), a.isPrefixOf b = true → lexLe a b = true
  | [], b, _ => by cases b <;> rfl
  | _ :: _, [], h => by simp [List.isPrefixOf] at h
  | x :: as, y :: bs, h => by
    simp only [List.isPrefixOf, Bool.and_eq_true, beq_iff_eq] at h
    obtain ⟨rfl, h2⟩ := h
    simp [lexLe, isPrefixOf_lexLe as bs h2]

theorem lexLe_between : ∀ (a b c : List Char), lexLe a b = true → lexLe b c = true →
    a.isPrefixOf c = true → a.isPrefixOf b = true
  | [], b, _, _, _, _ => by cases b <;> rfl
  | _ :: _, _, [], _, _, hac => by simp [List.isPrefixOf] at hac
  | _ :: _, [], _ :: _, hab, _, _ => by simp [lexLe] at hab
  | x :: as, y :: bs, z :: cs, hab, hbc, hac => by
    simp only [List.isPrefixOf, Bool.and_eq_true, beq_iff_eq] at hac
    obtain ⟨rfl, hac2⟩ := hac
    simp only [lexLe] at hab hbc
    by_cases hxy : x < y
    · rw [if_neg (asymm hxy), if_neg (Ne.symm (ne_of_lt hxy))] at hbc
      exact absurd hbc (by simp)
    · rw [if_neg hxy] at hab
      by_cases hxey : x = y
      · subst hxey
        rw [if_pos rfl] at hab
        rw [if_neg hxy, if_pos rfl] at hbc
        simp [List.isPrefixOf, lexLe_between as bs cs hab hbc hac2]
      · simp [hxey] at hab

theorem isPrefixOf_of_append : ∀ (a b c : List Char),
    (a ++ b).isPrefixOf c = true → a.isPrefixOf c = true
  | [], _, c, _ => by cases c <;> rfl
  | _ :: _, _, [], h => by simp [List.isPrefixOf] at h
  | x :: as, b, y :: cs, h => by
    simp only [List.cons_append, List.isPrefixOf, Bool.and_eq_true, beq_iff_eq] at h
    obtain ⟨rfl, h2⟩ := h
    simp [List.isPrefixOf, isPrefixOf_of_append as b cs h2]

theorem goHasPre_refl (s : String) : goHasPre s s = true := isPrefixOf_self s.toList

theorem goStrLe_trans (a b c : String) (h1 : goStrLe a b = true) (h2 : goStrLe b c = true) :
    goStrLe a c = true := lexLe_trans a.toList b.toList c.toList h1 h2

theorem goStrLe_antisymm (a b : String) (h1 : goStrLe a b = true) (h2 : goStrLe b a = true) :
    a = b := by
  have := lexLe_antisymm a.toList b.toList h1 h2
  exact String.ext this

theorem goHasPre_goStrLe (a b : String) (h : goHasPre b a = true) : goStrLe a b = true :=
  isPrefixOf_lexLe a.toList b.toList h

instance : IsTotal String (fun a b => goStrLe a b = true) :=
  ⟨fun a b => lexLe_total a.toList b.toList⟩

instance : IsTrans String (fun a b => goStrLe a b = true) :=
  ⟨fun a b c => goStrLe_trans a b c⟩

theorem rootPathsLoop_subset : ∀ (l : List String) (last r : String),
    r ∈ rootPathsLoop l last → r ∈ l
  | [], _, _, h => by simp [rootPathsLoop] at h
  | p :: rest, last, r, h => by
    simp only [rootPathsLoop] at h
    by_cases hp : goHasPre p last = true
    · rw [if_pos hp] at h
      exact List.mem_cons_of_mem _ (rootPathsLoop_subset rest last r h)
    · rw [if_neg hp] at h
      rcases List.mem_cons.mp h with rfl | h2
      · exact List.mem_cons_self _ _
      · exact List.mem_cons_of_mem _ (rootPathsLoop_subset rest p r h2)

theorem rootPathsLoop_covers : ∀ (l : List String) (last p : String), p ∈ l →
    ∃ r ∈ last :: rootPathsLoop l last, goHasPre p r = true
  | [], _, _, h => absurd h (List.not_mem_nil _)
  | q :: rest, last, p, h => by
    simp only [rootPathsLoop]
    by_cases hq : goHasPre q last = true
    · rw [if_pos hq]
      rcases List.mem_cons.mp h with rfl | hmem
      · exact ⟨last, List.mem_cons_self _ _, hq⟩
      · exact rootPathsLoop_covers rest last p hmem
    · rw [if_neg hq]
      rcases List.mem_cons.mp h with rfl | hmem
      · exact ⟨p, List.mem_cons_of_mem _ (List.mem_cons_self _ _), goHasPre_refl p⟩
      · obtain ⟨r, hr, hpre⟩ := rootPathsLoop_covers rest q p hmem
        rcases List.mem_cons.mp hr with rfl | hr2
        · exact ⟨r, List.mem_cons_of_mem _ (List.mem_cons_self _ _), hpre⟩
        · exact ⟨r, List.mem_cons_of_mem _ (List.mem_cons_of_mem _ hr2), hpre⟩

theorem rootPathsLoop_pairwise : ∀ (l : List String) (last : String),
    List.Pairwise (fun a b => goStrLe a b = true) l →
    (∀ p ∈ l, goStrLe last p = true) →
    List.Pairwise (fun a b => goHasPre b a = false ∧ goHasPre a b = false)
      (last :: rootPathsLoop l last)
  | [], last, _, _ => by simp [rootPathsLoop]
  | p :: rest, last, hs, hl => by
    simp only [rootPathsLoop]
    have hsrest := (List.pairwise_cons.mp hs).2
    have hphead := (List.pairwise_cons.mp hs).1
    have hlastp := hl p (List.mem_cons_self _ _)
    by_cases hp : goHasPre p last = true
    · rw [if_pos hp]
      exact rootPathsLoop_pairwise rest last hsrest
        (fun q hq => goStrLe_trans last p q hlastp (hphead q hq))
    · rw [if_neg hp]
      have ih := rootPathsLoop_pairwise rest p hsrest hphead
      refine List.pairwise_cons.mpr ⟨?_, ih⟩
      intro r hr
      rcases List.mem_cons.mp hr with rfl | hr2
      · refine ⟨Bool.eq_false_iff.mpr hp, ?_⟩
        apply Bool.eq_false_iff.mpr
        intro hcontra
        have hple : goStrLe r last = true := goHasPre_goStrLe r last hcontra
        have heq : r = last := goStrLe_antisymm r last hple hlastp
        exact hp (heq ▸ goHasPre_refl r)
      · have hrm : r ∈ rest := rootPathsLoop_subset rest p r hr2
        have hpr : goStrLe p r = true := hphead r hrm
        constructor
        · apply Bool.eq_false_iff.mpr
          intro hcontra
          exact hp (lexLe_between last.toList p.toList r.toList hlastp hpr hcontra)
        · apply Bool.eq_false_iff.mpr
          intro hcontra
          have h1 : goStrLe r last = true := goHasPre_goStrLe r last hcontra
          have h2 : goStrLe last r = true := goStrLe_trans last p r hlastp hpr
          have heq : last = r := goStrLe_antisymm last r h2 h1
          subst heq
          have heq2 : last = p := goStrLe_antisymm last p hlastp hpr
          exact hp (heq2 ▸ goHasPre_refl last)

theorem sortStrings_pairwise (l : List String) :
    List.Pairwise (fun a b => goStrLe a b = true) (sortStrings l) :=
  List.sorted_insertionSort _ l

theorem sortStrings_mem (l : List String) (a : String) : a ∈ sortStrings l ↔ a ∈ l :=
  (List.perm_insertionSort _ l).mem_iff

theorem findRootPaths_pairwise (filePaths : List String) :
    List.Pairwise (fun a b => goHasPre b a = false ∧ goHasPre a b = false)
      (findRootPaths filePaths) := by
  match filePaths with
  | [] => simp [findRootPaths]
  | x :: xs =>
    simp only [findRootPaths]
    cases hs : sortStrings ((x :: xs).map (fun f => goClean (goDir f))) with
    | nil => simp
    | cons f0 rest =>
      have hp := sortStrings_pairwise ((x :: xs).map (fun f => goClean (goDir f)))
      rw [hs] at hp
      have h0 := (List.pairwise_cons.mp hp).1
      exact rootPathsLoop_pairwise (f0 :: rest) f0 hp
        (fun p hmem => by
          rcases List.mem_cons.mp hmem with rfl | h2
          · exact lexLe_refl _
          · exact h0 p h2)

theorem string_toList_append (a b : String) : (a ++ b).toList = a.toList ++ b.toList :=
  String.data_append a b

theorem isPathDescendantOf_goHasPre (d r : String) (h : isPathDescendantOf d r = true) :
    goHasPre d r = true := by
  simp only [isPathDescendantOf, Bool.and_eq_true] at h
  obtain ⟨_, hp⟩ := h
  by_cases hs : goHasSuf r "/" = true
  · rwa [if_pos hs] at hp
  · rw [if_neg hs] at hp
    unfold goHasPre at hp ⊢
    rw [string_toList_append] at hp
    exact isPrefixOf_of_append _ _ _ hp

/-- C3: for every list of file paths, the root-directory reduction never
returns a directory that is a path-prefix-contained descendant of another
returned directory, and on `["/a/x/f1", "/a/x/y/f2", "/b/f3"]` it returns
exactly `["/a/x", "/b"]`. -/
theorem findRootPaths_minimal_roots :
    (∀ filePaths : List String,
      List.Pairwise
        (fun a b => isPathDescendantOf b a = false ∧ isPathDescendantOf a b = false)
        (findRootPaths filePaths)) ∧
    findRootPaths ["/a/x/f1", "/a/x/y/f2", "/b/f3"] = ["/a/x", "/b"] := by
  constructor
  · intro filePaths
    refine List.Pairwise.imp ?_ (findRootPaths_pairwise filePaths)
    intro a b hab
    obtain ⟨h1, h2⟩ := hab
    constructor
    · cases hD : isPathDescendantOf b a with
      | false => rfl
      | true => exact absurd (isPathDescendantOf_goHasPre b a hD) (by simp [h1])
    · cases hD : isPathDescendantOf a b with
      | false => rfl
      | true => exact absurd (isPathDescendantOf_goHasPre a b hD) (by simp [h2])
  · decide

/-- C2 counterexample: for the input `["/a/x/f1", "/a/xy/f2"]` the
returned root set is `["/a/x"]`, yet the second input's parent directory
`/a/xy` is neither equal to nor a path descendant of `/a/x`, so the
claimed path-descendant coverage fails. -/
theorem findRootPaths_coverage_counterexample :
    findRootPaths ["/a/x/f1", "/a/xy/f2"] = ["/a/x"] ∧
    goClean (goDir "/a/xy/f2") = "/a/xy" ∧
    ¬("/a/xy" = "/a/x" ∨ isPathDescendantOf "/a/xy" "/a/x" = true) := by
  decide

/-- C2 (amended): for every non-empty list of file paths, each input's
cleaned parent directory has some returned root directory as a string
prefix (`strings.HasPrefix`); path-descendant coverage in the claimed
sense fails (see the counterexample). -/
theorem findRootPaths_covers_by_string_prefix (filePaths : List String)
    (hne : filePaths ≠ []) :
    ∀ f ∈ filePaths, ∃ r ∈ findRootPaths filePaths,
      goHasPre (goClean (goDir f)) r = true := by
  intro f hf
  cases filePaths with
  | nil => exact absurd rfl hne
  | cons x xs =>
    simp only [findRootPaths]
    have hmem : goClean (goDir f) ∈ (x :: xs).map (fun g => goClean (goDir g)) :=
      List.mem_map.mpr ⟨f, hf, rfl⟩
    have hmem2 := (sortStrings_mem ((x :: xs).map (fun g => goClean (goDir g)))
      (goClean (goDir f))).mpr hmem
    cases hs : sortStrings ((x :: xs).map (fun g => goClean (goDir g))) with
    | nil => rw [hs] at hmem2; exact absurd hmem2 (List.not_mem_nil _)
    | cons f0 rest =>
      rw [hs] at hmem2
      exact rootPathsLoop_covers (f0 :: rest) f0 _ hmem2

/-- Witness for the amended C2 theorem at a concrete input. -/
theorem findRootPaths_covers_by_string_prefix_witness :
    (["/a/x/f1", "/b/f3"] : List String) ≠ [] ∧
    ∃ r ∈ findRootPaths ["/a/x/f1", "/b/f3"],
      goHasPre (goClean (goDir "/a/x/f1")) r = true :=
  ⟨by decide,
    findRootPaths_covers_by_string_prefix ["/a/x/f1", "/b/f3"] (by decide)
      "/a/x/f1" (by decide)⟩

theorem sopsRunLoop_mem :
    ∀ (l : List String) (acc : List Event) (stderrOf : String → Option String)
      (env : List String) (ev : Event), ev ∈ (sopsRunLoop stderrOf env l acc).1 →
      ev ∈ acc ∨ ∃ fp ∈ l, ev = Event.sopsRun (goDir fp)
        ["--output", goReplaceAll (goBase fp) ".sops." ".", "--decrypt", goBase fp] env
  | [], acc, stderrOf, env, ev, h => Or.inl h
  | fp :: rest, acc, stderrOf, env, ev, h => by
    simp only [sopsRunLoop] at h
    cases hf : stderrOf fp with
    | some s =>
      rw [hf] at h
      rcases List.mem_append.mp h with h2 | h2
      · exact Or.inl h2
      · exact Or.inr ⟨fp, List.mem_cons_self _ _, List.mem_singleton.mp h2⟩
    | none =>
      rw [hf] at h
      rcases sopsRunLoop_mem rest _ stderrOf env ev h with h2 | h2
      · rcases List.mem_append.mp h2 with h3 | h3
        · exact Or.inl h3
        · exact Or.inr ⟨fp, List.mem_cons_self _ _, List.mem_singleton.mp h3⟩
      · obtain ⟨fq, hq, he⟩ := h2
        exact Or.inr ⟨fq, List.mem_cons_of_mem _ hq, he⟩

theorem sopsCollect_mem (walk : String → List WalkEntry) (roots : List String)
    (fp : String) (h : fp ∈ sopsCollect walk roots) :
    ∃ root ∈ roots, ∃ e ∈ walk root, e.visitErr = false ∧ e.isDir = false ∧
      globMatch "*.sops.*".toList e.name.toList = true ∧ fp = e.path := by
  simp only [sopsCollect, List.mem_flatMap] at h
  obtain ⟨root, hroot, hmem⟩ := h
  obtain ⟨e, he, hfp⟩ := List.mem_map.mp hmem
  have hfilter := List.mem_filter.mp he
  simp only [Bool.and_eq_true, Bool.not_eq_true'] at hfilter
  exact ⟨root, hroot, e, hfilter.1, hfilter.2.1.1, hfilter.2.1.2, hfilter.2.2, hfp.symm⟩

/-- C4: during secret resolution every SOPS invocation stems from a
non-directory walk entry (without a walk error) whose base name matches
the `*.sops.*` pattern, runs with working directory the file's folder,
and writes the sibling output file whose name drops the marker; files
that do not match are never passed to the decrypt tool. -/
theorem sopsDecrypt_only_matching_files (walk : String → List WalkEntry)
    (stderrOf : String → Option String) (composeFilePaths env : List String)
    (wd : String) (args e : List String)
    (h : Event.sopsRun wd args e ∈ (sopsDecrypt walk stderrOf composeFilePaths env).1) :
    ∃ root ∈ findRootPaths composeFilePaths, ∃ entry ∈ walk root,
      entry.isDir = false ∧ entry.visitErr = false ∧
      globMatch "*.sops.*".toList entry.name.toList = true ∧
      wd = goDir entry.path ∧
      args = ["--output", goReplaceAll entry.name ".sops." ".", "--decrypt", entry.name] ∧
      e = env := by
  rcases sopsRunLoop_mem _ [] stderrOf env _ h with h2 | h2
  · exact absurd h2 (List.not_mem_nil _)
  · obtain ⟨fp, hfp, heq⟩ := h2
    obtain ⟨root, hroot, entry, hentry, hverr, hdir, hmatch, hpath⟩ :=
      sopsCollect_mem walk _ fp hfp
    injection heq with e1 e2 e3
    subst hpath
    exact ⟨root, hroot, entry, hentry, hdir, hverr, hmatch, e1, e2, e3⟩

/-- Witness for the C4 theorem at a concrete filesystem with one matching
secret file. -/
theorem sopsDecrypt_only_matching_files_witness :
    (Event.sopsRun "/w" ["--output", "app.yml", "--decrypt", "app.sops.yml"] [] ∈
      (sopsDecrypt (fun _ => [⟨"/w/app.sops.yml", false, false⟩]) (fun _ => none)
        ["/w/app.yml"] []).1) ∧
    (∃ root ∈ findRootPaths ["/w/app.yml"],
      ∃ entry ∈ (fun (_ : String) => [WalkEntry.mk "/w/app.sops.yml" false false]) root,
        entry.isDir = false ∧ entry.visitErr = false ∧
        globMatch "*.sops.*".toList entry.name.toList = true ∧
        "/w" = goDir entry.path ∧
        ["--output", "app.yml", "--decrypt", "app.sops.yml"] =
          ["--output", goReplaceAll entry.name ".sops." ".", "--decrypt", entry.name] ∧
        ([] : List String) = []) :=
  ⟨by decide,
    sopsDecrypt_only_matching_files (fun _ => [⟨"/w/app.sops.yml", false, false⟩])
      (fun _ => none) ["/w/app.yml"] [] "/w"
      ["--output", "app.yml", "--decrypt", "app.sops.yml"] [] (by decide)⟩

/-- C10: the decrypted output filename replaces every (non-overlapping,
left-to-right) occurrence of the marker `".sops."` with `"."`; a name
carrying the marker twice loses both occurrences — `a.sops.b.sops.yml`
decrypts to `a.b.yml`, not to a name that dropped a single marker — and
the SOPS invocation for such a file carries exactly that output name. -/
theorem sops_output_name_replaces_all_markers :
    goReplaceAll "a.sops.b.sops.yml" ".sops." "." = "a.b.yml" ∧
    goReplaceAll "a.sops.b.sops.yml" ".sops." "." ≠ "a.b.sops.yml" ∧
    goReplaceAll "a.sops.b.sops.yml" ".sops." "." ≠ "a.sops.b.yml" ∧
    (sopsDecrypt (fun _ => [⟨"/w/a.sops.b.sops.yml", false, false⟩]) (fun _ => none)
        ["/w/app.yml"] []).1 =
      [Event.sopsRun "/w" ["--output", "a.b.yml", "--decrypt", "a.sops.b.sops.yml"] []] := by
  decide

theorem dockerLoginLoop_eq : ∀ (l : List String) (acc : List Event) (fails : String → Bool),
    dockerLoginLoop fails l acc = (acc ++ l.flatMap (loginEventsOf fails), none)
  | [], acc, fails => by simp [dockerLoginLoop]
  | registry :: rest, acc, fails => by
    simp only [dockerLoginLoop, loginEventsOf, List.flatMap_cons]
    by_cases hlen : (goSplit ':' registry).length ≠ 3
    · rw [if_pos hlen, if_pos hlen, dockerLoginLoop_eq rest _ fails]
      simp [List.append_assoc]
    · rw [if_neg hlen, if_neg hlen]
      by_cases hf : fails ((goSplit ':' registry).getD 2 "") = true
      · rw [if_pos hf, if_pos hf, dockerLoginLoop_eq rest _ fails]
        simp [List.append_assoc]
      · rw [if_neg hf, if_neg hf, dockerLoginLoop_eq rest _ fails]
        simp [List.append_assoc]

theorem dockerLogoutLoop_eq : ∀ (l : List String) (acc : List Event) (fails : String → Bool),
    dockerLogoutLoop fails l acc = (acc ++ l.flatMap (logoutEventsOf fails), none)
  | [], acc, fails => by simp [dockerLogoutLoop]
  | registry :: rest, acc, fails => by
    simp only [dockerLogoutLoop, logoutEventsOf, List.flatMap_cons]
    by_cases hlen : (goSplit ':' registry).length ≠ 3
    · rw [if_pos hlen, if_pos hlen, dockerLogoutLoop_eq rest _ fails]
      simp [List.append_assoc]
    · rw [if_neg hlen, if_neg hlen]
      by_cases hf : fails ((goSplit ':' registry).getD 2 "") = true
      · rw [if_pos hf, if_pos hf, dockerLogoutLoop_eq rest _ fails]
        simp [List.append_assoc]
      · rw [if_neg hf, if_neg hf, dockerLogoutLoop_eq rest _ fails]
        simp [List.append_assoc]

theorem dockerLogin_eq (fails : String → Bool) (registries : List String) :
    dockerLogin fails registries = (registries.flatMap (loginEventsOf fails), none) := by
  simpa using dockerLoginLoop_eq registries [] fails

theorem dockerLogout_eq (fails : String → Bool) (registries : List String) :
    dockerLogout fails registries = (registries.flatMap (logoutEventsOf fails), none) := by
  simpa using dockerLogoutLoop_eq registries [] fails

/-- C7: `dockerLogin` and `dockerLogout` always return `nil`; a credential
string that does not split on `:` into exactly three segments is skipped
with a warning and never produces a login/logout command invocation, and
every well-formed credential is processed (its command invoked) no matter
what happens to the other registries — neither malformed entries nor
individual command failures abort the remaining registries or the
deployment. -/
theorem dockerLogin_logout_never_fail (loginFails logoutFails : String → Bool)
    (registries : List String) :
    (dockerLogin loginFails registries).2 = none ∧
    (dockerLogout logoutFails registries).2 = none ∧
    (∀ r ∈ registries, (goSplit ':' r).length ≠ 3 →
      Event.loginBad r ∈ (dockerLogin loginFails registries).1 ∧
      Event.logoutBad r ∈ (dockerLogout logoutFails registries).1 ∧
      (∀ u pw server, Event.loginInvoke u pw server ∉ loginEventsOf loginFails r) ∧
      (∀ server, Event.logoutInvoke server ∉ logoutEventsOf logoutFails r)) ∧
    (∀ r ∈ registries, (goSplit ':' r).length = 3 →
      Event.loginInvoke ((goSplit ':' r).getD 0 "") ((goSplit ':' r).getD 1 "")
        ((goSplit ':' r).getD 2 "") ∈ (dockerLogin loginFails registries).1 ∧
      Event.logoutInvoke ((goSplit ':' r).getD 2 "") ∈
        (dockerLogout logoutFails registries).1) := by
  rw [dockerLogin_eq, dockerLogout_eq]
  refine ⟨rfl, rfl, ?_, ?_⟩
  · intro r hr hlen
    refine ⟨List.mem_flatMap.mpr ⟨r, hr, ?_⟩, List.mem_flatMap.mpr ⟨r, hr, ?_⟩, ?_, ?_⟩
    · simp [loginEventsOf, hlen]
    · simp [logoutEventsOf, hlen]
    · intro u pw server
      simp [loginEventsOf, hlen]
    · intro server
      simp [logoutEventsOf, hlen]
  · intro r hr hlen
    constructor
    · refine List.mem_flatMap.mpr ⟨r, hr, ?_⟩
      simp only [loginEventsOf, hlen]
      rw [if_neg (by simp)]
      split <;> exact List.mem_cons_self _ _
    · refine List.mem_flatMap.mpr ⟨r, hr, ?_⟩
      simp only [logoutEventsOf, hlen]
      rw [if_neg (by simp)]
      split <;> exact List.mem_cons_self _ _

/-- Witness for the C7 theorem at a concrete registry list with one
malformed entry and one well-formed entry whose command fails. -/
theorem dockerLogin_logout_never_fail_witness :
    ("bad" ∈ (["u:p:s", "bad"] : List String)) ∧ ((goSplit ':' "bad").length ≠ 3) ∧
    ("u:p:s" ∈ (["u:p:s", "bad"] : List String)) ∧ ((goSplit ':' "u:p:s").length = 3) ∧
    (Event.loginBad "bad" ∈ (dockerLogin (fun _ => true) ["u:p:s", "bad"]).1) ∧
    (Event.loginInvoke ((goSplit ':' "u:p:s").getD 0 "") ((goSplit ':' "u:p:s").getD 1 "")
      ((goSplit ':' "u:p:s").getD 2 "") ∈ (dockerLogin (fun _ => true) ["u:p:s", "bad"]).1) :=
  ⟨by decide, by decide, by decide, by decide,
    ((dockerLogin_logout_never_fail (fun _ => true) (fun _ => true) ["u:p:s", "bad"]).2.2.1
      "bad" (by decide) (by decide)).1,
    ((dockerLogin_logout_never_fail (fun _ => true) (fun _ => true) ["u:p:s", "bad"]).2.2.2
      "u:p:s" (by decide) (by decide)).1⟩

theorem contains_mem {l : List String} {a : String} (h : l.contains a = true) : a ∈ l := by
  simpa using h

theorem mem_loginEvents_isRegistry (fails : String → Bool) (rs : List String) (ev : Event)
    (h : ev ∈ rs.flatMap (loginEventsOf fails)) : isRegistryEvent ev = true := by
  obtain ⟨r, _, hmem⟩ := List.mem_flatMap.mp h
  simp only [loginEventsOf] at hmem
  split at hmem
  · rw [List.mem_singleton.mp hmem]; rfl
  · split at hmem <;> rcases List.mem_cons.mp hmem with rfl | h2 <;>
      first
        | rfl
        | (rw [List.mem_singleton.mp h2]; rfl)

theorem mem_logoutEvents_isRegistry (fails : String → Bool) (rs : List String) (ev : Event)
    (h : ev ∈ rs.flatMap (logoutEventsOf fails)) : isRegistryEvent ev = true := by
  obtain ⟨r, _, hmem⟩ := List.mem_flatMap.mp h
  simp only [logoutEventsOf] at hmem
  split at hmem
  · rw [List.mem_singleton.mp hmem]; rfl
  · split at hmem <;> rcases List.mem_cons.mp hmem with rfl | h2 <;>
      first
        | rfl
        | (rw [List.mem_singleton.mp h2]; rfl)

theorem workspaceStage_keep (mountExists removeAllFails mkdirFails cloneFails : Bool)
    (mp : String) (ce : Event) :
    workspaceStage true mountExists removeAllFails mkdirFails cloneFails mp ce = ([], none) :=
  rfl

theorem workspaceStage_some {keep mountExists removeAllFails mkdirFails cloneFails : Bool}
    {mp : String} {ce : Event} {e : GoError}
    (h : (workspaceStage keep mountExists removeAllFails mkdirFails cloneFails mp ce).2 =
      some e) : e = GoError.deployComposeFailure := by
  unfold workspaceStage at h
  split_ifs at h <;> simp_all

theorem workspaceStage_events {keep mountExists removeAllFails mkdirFails cloneFails : Bool}
    {mp : String} {ce : Event} {ev : Event}
    (hmem : ev ∈ (workspaceStage keep mountExists removeAllFails mkdirFails cloneFails
      mp ce).1) :
    ev = Event.removeWorkspace mp ∨ ev = Event.mkdirWorkspace mp ∨ ev = ce := by
  unfold workspaceStage at hmem
  split_ifs at hmem <;> simp_all <;> tauto

theorem swarmUpdateLoop_events : ∀ (pre : List String) (force : Bool) (post : List String)
    (ev : Event), ev ∈ swarmUpdateLoop pre force post →
    ∃ id, id ∈ post ∧ pre.contains id = true ∧ ev = Event.updateService id force
  | pre, force, [], ev, h => by simp [swarmUpdateLoop] at h
  | pre, force, id :: rest, ev, h => by
    simp only [swarmUpdateLoop] at h
    by_cases hc : pre.contains id = true
    · rw [if_pos hc] at h
      rcases List.mem_cons.mp h with rfl | h2
      · exact ⟨id, List.mem_cons_self _ _, hc, rfl⟩
      · obtain ⟨i, hi, hci, he⟩ := swarmUpdateLoop_events pre force rest ev h2
        exact ⟨i, List.mem_cons_of_mem _ hi, hci, he⟩
    · rw [if_neg hc] at h
      obtain ⟨i, hi, hci, he⟩ := swarmUpdateLoop_events pre force rest ev h
      exact ⟨i, List.mem_cons_of_mem _ hi, hci, he⟩

theorem parseRegistriesLoop_events : ∀ (l : List String) (ev : Event),
    ev ∈ (parseRegistriesLoop l).1 → ∃ r, ev = Event.registrySkipped r
  | [], ev, h => by simp [parseRegistriesLoop] at h
  | registry :: rest, ev, h => by
    simp only [parseRegistriesLoop] at h
    by_cases hlen : (goSplit ':' registry).length ≠ 3
    · rw [if_pos hlen] at h
      rcases List.mem_cons.mp h with rfl | h2
      · exact ⟨registry, rfl⟩
      · exact parseRegistriesLoop_events rest ev h2
    · rw [if_neg hlen] at h
      exact parseRegistriesLoop_events rest ev h

theorem sopsDecrypt_events (walk : String → List WalkEntry)
    (stderrOf : String → Option String) (paths env : List String) (ev : Event)
    (h : ev ∈ (sopsDecrypt walk stderrOf paths env).1) :
    ∃ wd args, ev = Event.sopsRun wd args env := by
  rcases sopsRunLoop_mem _ [] stderrOf env ev h with h2 | h2
  · exact absurd h2 (List.not_mem_nil _)
  · obtain ⟨fp, _, rfl⟩ := h2
    exact ⟨_, _, rfl⟩

theorem append_tail_ex {α : Type} (a : List α) {b c : List α} (h : ∃ t, b = t ++ c) :
    ∃ t, a ++ b = t ++ c := by
  obtain ⟨t, ht⟩ := h
  exact ⟨a ++ t, by rw [ht, List.append_assoc]⟩

/-- C9: on every execution path of the deploy runs that open a registry
session (the single-engine run of src/deploy.go and the clustered run of
src/unnamed/part_001), the full `dockerLogout` trace is the tail of the
run's trace — the deferred session close executes before the run returns,
no matter which later step fails. -/
theorem registry_logout_always_runs :
    (∀ (cmd : DeployCommand) (env : ComposeEnvA),
      ∃ t, (DeployCommandRunA cmd env).1 =
        t ++ (dockerLogout env.logoutFails cmd.Registry).1) ∧
    (∀ (cmd : SwarmDeployCommand) (env : SwarmEnv),
      ∃ t, (SwarmDeployCommandRun cmd env).1 =
        t ++ (dockerLogout env.logoutFails cmd.Registry).1) := by
  constructor
  · intro cmd env
    simp only [DeployCommandRunA, dockerLogin_eq, dockerLogout_eq]
    repeat' split
    all_goals first
      | exact ⟨[], rfl⟩
      | exact append_tail_ex _ ⟨[], rfl⟩
      | exact append_tail_ex _ (append_tail_ex _ ⟨[], rfl⟩)
      | exact append_tail_ex _ (append_tail_ex _ (append_tail_ex _ ⟨[], rfl⟩))
      | exact append_tail_ex _ (append_tail_ex _ (append_tail_ex _ (append_tail_ex _
          ⟨[], rfl⟩)))
      | exact append_tail_ex _ (append_tail_ex _ (append_tail_ex _ (append_tail_ex _
          (append_tail_ex _ ⟨[], rfl⟩))))
      | simp_all
  · intro cmd env
    simp only [SwarmDeployCommandRun, dockerLogin_eq, dockerLogout_eq]
    repeat' split
    all_goals first
      | exact ⟨[], rfl⟩
      | exact append_tail_ex _ ⟨[], rfl⟩
      | exact append_tail_ex _ (append_tail_ex _ ⟨[], rfl⟩)
      | exact append_tail_ex _ (append_tail_ex _ (append_tail_ex _ ⟨[], rfl⟩))
      | exact append_tail_ex _ (append_tail_ex _ (append_tail_ex _ (append_tail_ex _
          ⟨[], rfl⟩)))
      | exact append_tail_ex _ (append_tail_ex _ (append_tail_ex _ (append_tail_ex _
          (append_tail_ex _ ⟨[], rfl⟩))))
      | simp_all

/-- C6 counterexample: a clustered-mode undeploy whose `docker stack rm`
fails with stderr "boom" returns the raw captured-stderr error, which is
a different error value from the generic "stack deployment failure". -/
theorem swarm_undeploy_raw_error_counterexample :
    SwarmUndeployCommandRun ⟨"proj", "/data", false⟩ ⟨some "boom", false⟩ =
      ([Event.stackRm "proj"], some (GoError.raw "boom")) ∧
    GoError.raw "boom" ≠ GoError.deployComposeFailure := by
  decide

/-- C6 (amended): every fatal error of the deploy runs (the single-engine
run of src/deploy.go, the clustered run of src/unnamed/part_001 with the
spec-modelled service query and swarm deploy) and of the single-engine
undeploy surfaces as the single generic "stack deployment failure" value;
the clustered undeploy is the exception: a stack-removal failure there
surfaces as the raw captured-stderr error instead. -/
theorem fatal_errors_generic :
    (∀ (cmd : DeployCommand) (env : ComposeEnvA),
      (DeployCommandRunA cmd env).2 = none ∨
      (DeployCommandRunA cmd env).2 = some GoError.deployComposeFailure) ∧
    (∀ (cmd : SwarmDeployCommand) (env : SwarmEnv),
      (SwarmDeployCommandRun cmd env).2 = none ∨
      (SwarmDeployCommandRun cmd env).2 = some GoError.deployComposeFailure) ∧
    (∀ (cmd : UndeployCommand) (env : UndeployEnv),
      (UndeployCommandRun cmd env).2 = none ∨
      (UndeployCommandRun cmd env).2 = some GoError.deployComposeFailure) ∧
    (∀ (cmd : SwarmUndeployCommand) (env : SwarmUndeployEnv),
      (SwarmUndeployCommandRun cmd env).2 =
        match env.stackRmStderr with
        | some s => some (GoError.raw s)
        | none => none) := by
  refine ⟨?_, ?_, ?_, ?_⟩
  · intro cmd env
    simp only [DeployCommandRunA, dockerLogin_eq, dockerLogout_eq]
    repeat' split
    all_goals first
      | exact Or.inl rfl
      | exact Or.inr rfl
      | exact Or.inr (by
          have hval : _ = GoError.deployComposeFailure := workspaceStage_some (by assumption)
          simp [hval])
      | simp_all
  · intro cmd env
    simp only [SwarmDeployCommandRun, dockerLogin_eq, dockerLogout_eq]
    repeat' split
    all_goals first
      | exact Or.inl rfl
      | exact Or.inr rfl
      | exact Or.inr (by
          have hval : _ = GoError.deployComposeFailure := workspaceStage_some (by assumption)
          simp [hval])
      | simp_all
  · intro cmd env
    simp only [UndeployCommandRun]
    repeat' split
    all_goals first
      | exact Or.inl rfl
      | exact Or.inr rfl
      | simp_all
  · intro cmd env
    simp only [SwarmUndeployCommandRun]
    split <;> rfl

theorem registry_not_workspace {ev : Event} (h : isRegistryEvent ev = true) :
    touchesWorkspace ev = false := by
  cases ev <;> simp_all [isRegistryEvent, touchesWorkspace]

/-- C8: under `keep = true` a deploy run (any of the three embedded deploy
`Run` methods) emits no workspace removal, no workspace creation and no
git clone — the workspace directory is reused untouched and the clone
step is skipped entirely. -/
theorem keep_preserves_workspace :
    (∀ (cmd : DeployCommand) (env : ComposeEnvA), cmd.Keep = true →
      ∀ ev ∈ (DeployCommandRunA cmd env).1, touchesWorkspace ev = false) ∧
    (∀ (cmd : DeployCommand) (env : ComposeEnvB), cmd.Keep = true →
      ∀ ev ∈ (DeployCommandRunB cmd env).1, touchesWorkspace ev = false) ∧
    (∀ (cmd : SwarmDeployCommand) (env : SwarmEnv), cmd.Keep = true →
      ∀ ev ∈ (SwarmDeployCommandRun cmd env).1, touchesWorkspace ev = false) := by
  refine ⟨?_, ?_, ?_⟩
  · intro cmd env hkeep
    simp only [DeployCommandRunA, dockerLogin_eq, dockerLogout_eq, hkeep,
      workspaceStage_keep]
    repeat' split
    all_goals intro ev hmem
    all_goals try simp only [List.mem_append, List.mem_cons, List.not_mem_nil, or_false,
      false_or, List.nil_append, List.append_nil] at hmem
    all_goals repeat' rcases hmem with hmem | hmem
    all_goals first
      | exact registry_not_workspace (mem_loginEvents_isRegistry _ _ _ hmem)
      | exact registry_not_workspace (mem_logoutEvents_isRegistry _ _ _ hmem)
      | (obtain ⟨wd, args, rfl⟩ := sopsDecrypt_events _ _ _ _ _ hmem; rfl)
      | (rw [List.mem_singleton.mp hmem]; rfl)
      | (subst hmem; rfl)
      | rfl
      | exact hmem.elim
      | exact absurd hmem (List.not_mem_nil _)
      | simp_all
  · intro cmd env hkeep
    simp only [DeployCommandRunB, hkeep, workspaceStage_keep]
    repeat' split
    all_goals intro ev hmem
    all_goals try simp only [List.mem_append, List.mem_cons, List.not_mem_nil, or_false,
      false_or, List.nil_append, List.append_nil] at hmem
    all_goals repeat' rcases hmem with hmem | hmem
    all_goals first
      | (obtain ⟨r, rfl⟩ := parseRegistriesLoop_events _ _ hmem; rfl)
      | (rw [List.mem_singleton.mp hmem]; rfl)
      | (subst hmem; rfl)
      | rfl
      | exact hmem.elim
      | exact absurd hmem (List.not_mem_nil _)
      | simp_all
  · intro cmd env hkeep
    simp only [SwarmDeployCommandRun, dockerLogin_eq, dockerLogout_eq, hkeep,
      workspaceStage_keep]
    repeat' split
    all_goals intro ev hmem
    all_goals try simp only [List.mem_append, List.mem_cons, List.not_mem_nil, or_false,
      false_or, List.nil_append, List.append_nil] at hmem
    all_goals repeat' rcases hmem with hmem | hmem
    all_goals first
      | exact registry_not_workspace (mem_loginEvents_isRegistry _ _ _ hmem)
      | exact registry_not_workspace (mem_logoutEvents_isRegistry _ _ _ hmem)
      | (obtain ⟨id, _, _, rfl⟩ := swarmUpdateLoop_events _ _ _ _ hmem; rfl)
      | (rw [List.mem_singleton.mp hmem]; rfl)
      | (subst hmem; rfl)
      | rfl
      | exact hmem.elim
      | exact absurd hmem (List.not_mem_nil _)
      | simp_all

/-- C1: in clustered mode the force-update flag is set (observable as the
"Set to force update" log event, emitted at the decision point) iff the
caller requested `forceRecreate` and the pre-deploy running-service
snapshot is non-empty; and every forced per-service update is issued only
with force set, and only for an identifier present in both the pre- and
post-deploy running-service snapshots. -/
theorem swarm_forceUpdate_iff_and_intersection :
    (∀ (cmd : SwarmDeployCommand) (env : SwarmEnv),
      goLastIdx '/' cmd.GitRepository.toList ≠ none → env.preFails = false →
      (Event.logForceUpdate ∈ (SwarmDeployCommandRun cmd env).1 ↔
        (cmd.ForceRecreateStack = true ∧ env.preIDs ≠ []))) ∧
    (∀ (cmd : SwarmDeployCommand) (env : SwarmEnv) (id : String) (f : Bool),
      Event.updateService id f ∈ (SwarmDeployCommandRun cmd env).1 →
      cmd.ForceRecreateStack = true ∧ env.preIDs ≠ [] ∧ id ∈ env.preIDs ∧
        id ∈ env.postIDs ∧ f = true) := by
  constructor
  · intro cmd env hurl hpre
    have hurl2 : goLastIdx '/' cmd.GitRepository.data ≠ none := hurl
    by_cases hfu : (cmd.ForceRecreateStack && !env.preIDs.isEmpty) = true
    · have hrhs : cmd.ForceRecreateStack = true ∧ env.preIDs ≠ [] := by
        have h := hfu
        simp only [Bool.and_eq_true, Bool.not_eq_true', List.isEmpty_eq_false] at h
        exact h
      simp only [SwarmDeployCommandRun, dockerLogin_eq, dockerLogout_eq]
      repeat' split
      all_goals first
        | (refine iff_of_true ?_ hrhs; simp; done)
        | simp_all
    · have hnot : ¬(cmd.ForceRecreateStack = true ∧ env.preIDs ≠ []) := by
        rintro ⟨h1, h2⟩
        apply hfu
        rw [h1]
        simpa using h2
      simp only [SwarmDeployCommandRun, dockerLogin_eq, dockerLogout_eq]
      repeat' split
      all_goals first
        | (refine iff_of_false ?_ hnot
           intro hmem
           try simp only [List.mem_append, List.mem_cons, List.not_mem_nil, or_false,
             false_or] at hmem
           repeat' rcases hmem with hmem | hmem
           all_goals first
             | (have hreg := mem_loginEvents_isRegistry _ _ _ hmem
                simp [isRegistryEvent] at hreg)
             | (have hreg := mem_logoutEvents_isRegistry _ _ _ hmem
                simp [isRegistryEvent] at hreg)
             | (rcases workspaceStage_events hmem with h | h | h <;> simp at h)
             | (obtain ⟨i2, _, _, he⟩ := swarmUpdateLoop_events _ _ _ _ hmem; simp at he)
             | exact hmem.elim
             | (simp at hmem; done))
        | simp_all
  · intro cmd env id f hmem
    by_cases hfu : (cmd.ForceRecreateStack && !env.preIDs.isEmpty) = true
    · simp only [SwarmDeployCommandRun, dockerLogin_eq, dockerLogout_eq] at hmem
      repeat' split at hmem
      all_goals try simp only [List.mem_append, List.mem_cons, List.not_mem_nil, or_false,
        false_or] at hmem
      all_goals repeat' rcases hmem with hmem | hmem
      all_goals first
        | (have hreg := mem_loginEvents_isRegistry _ _ _ hmem
           simp [isRegistryEvent] at hreg)
        | (have hreg := mem_logoutEvents_isRegistry _ _ _ hmem
           simp [isRegistryEvent] at hreg)
        | (rcases workspaceStage_events hmem with h | h | h <;> simp at h)
        | (obtain ⟨i2, hpost, hcont, he⟩ := swarmUpdateLoop_events _ _ _ _ hmem
           have hsplit := hfu
           simp only [Bool.and_eq_true, Bool.not_eq_true', List.isEmpty_eq_false] at hsplit
           injection he with hid hforce
           subst hid
           subst hforce
           exact ⟨hsplit.1, hsplit.2, contains_mem hcont, hpost, hfu⟩)
        | exact hmem.elim
        | (simp at hmem; done)
        | simp_all
    · exfalso
      simp only [SwarmDeployCommandRun, dockerLogin_eq, dockerLogout_eq] at hmem
      repeat' split at hmem
      all_goals try simp only [List.mem_append, List.mem_cons, List.not_mem_nil, or_false,
        false_or] at hmem
      all_goals repeat' rcases hmem with hmem | hmem
      all_goals first
        | (have hreg := mem_loginEvents_isRegistry _ _ _ hmem
           simp [isRegistryEvent] at hreg)
        | (have hreg := mem_logoutEvents_isRegistry _ _ _ hmem
           simp [isRegistryEvent] at hreg)
        | (rcases workspaceStage_events hmem with h | h | h <;> simp at h)
        | exact hmem.elim
        | (simp at hmem; done)
        | simp_all

/-- C5: the single-engine deploy of src/unnamed/part_001 hands the
external compose deploy call the `ForceRecreate` and `RemoveOrphans`
flags exactly as the request gave them (`ForceRecreateStack`, `Prune`),
never overriding them. -/
theorem compose_deploy_flags_pass_through (cmd : DeployCommand) (env : ComposeEnvB)
    (paths : List String) (opts : DeployOptions)
    (hmem : Event.composeDeploy paths opts ∈ (DeployCommandRunB cmd env).1) :
    opts.ForceRecreate = cmd.ForceRecreateStack ∧ opts.RemoveOrphans = cmd.Prune := by
  simp only [DeployCommandRunB] at hmem
  repeat' split at hmem
  all_goals try simp only [List.mem_append, List.mem_cons, List.not_mem_nil, or_false,
    false_or] at hmem
  all_goals repeat' rcases hmem with hmem | hmem
  all_goals first
    | (rcases workspaceStage_events hmem with h | h | h <;> simp at h)
    | (obtain ⟨r, he⟩ := parseRegistriesLoop_events _ _ hmem; simp at he)
    | (injection hmem with h1 h2; subst h2; exact ⟨rfl, rfl⟩)
    | exact hmem.elim
    | simp_all

/-- Witness for the C1 theorem at a concrete clustered deploy with
`forceRecreate` requested, one service running before, and two after. -/
theorem swarm_forceUpdate_iff_and_intersection_witness :
    (goLastIdx '/' ("https://ex.com/org/app.git" : String).toList ≠ none) ∧
    ((false : Bool) = false) ∧
    (Event.logForceUpdate ∈ (SwarmDeployCommandRun
        ⟨"https://ex.com/org/app.git", "main", "proj", "/data", "", "", [], [], [], true,
          false, true⟩
        ⟨fun _ => false, fun _ => false, false, ["s1"], false, false, false, false, false,
          false, ["s1", "s2"]⟩).1 ↔
      ((true : Bool) = true ∧ (["s1"] : List String) ≠ [])) ∧
    (Event.updateService "s1" true ∈ (SwarmDeployCommandRun
        ⟨"https://ex.com/org/app.git", "main", "proj", "/data", "", "", [], [], [], true,
          false, true⟩
        ⟨fun _ => false, fun _ => false, false, ["s1"], false, false, false, false, false,
          false, ["s1", "s2"]⟩).1) ∧
    ((true : Bool) = true ∧ (["s1"] : List String) ≠ [] ∧ "s1" ∈ (["s1"] : List String) ∧
      "s1" ∈ (["s1", "s2"] : List String) ∧ (true : Bool) = true) :=
  ⟨by decide, rfl,
    swarm_forceUpdate_iff_and_intersection.1
      ⟨"https://ex.com/org/app.git", "main", "proj", "/data", "", "", [], [], [], true,
        false, true⟩
      ⟨fun _ => false, fun _ => false, false, ["s1"], false, false, false, false, false,
        false, ["s1", "s2"]⟩ (by decide) rfl,
    by decide,
    swarm_forceUpdate_iff_and_intersection.2
      ⟨"https://ex.com/org/app.git", "main", "proj", "/data", "", "", [], [], [], true,
        false, true⟩
      ⟨fun _ => false, fun _ => false, false, ["s1"], false, false, false, false, false,
        false, ["s1", "s2"]⟩ "s1" true (by decide)⟩

/-- Witness for the C5 theorem at a concrete single-engine deploy with
`forceRecreate` and `prune` both requested. -/
theorem compose_deploy_flags_pass_through_witness :
    (Event.composeDeploy ["/data/stacks/proj/app/docker-compose.yml"]
        ⟨"/data/stacks/proj/app", "proj", ["E=1"], [], true, true⟩ ∈
      (DeployCommandRunB
        ⟨"https://ex.com/org/app.git", "main", "proj", "/data", "", "",
          ["docker-compose.yml"], ["E=1"], [], true, false, true, true⟩
        ⟨false, false, false, false, false⟩).1) ∧
    ((true : Bool) = true ∧ (true : Bool) = true) :=
  ⟨by decide,
    compose_deploy_flags_pass_through
      ⟨"https://ex.com/org/app.git", "main", "proj", "/data", "", "",
        ["docker-compose.yml"], ["E=1"], [], true, false, true, true⟩
      ⟨false, false, false, false, false⟩
      ["/data/stacks/proj/app/docker-compose.yml"]
      ⟨"/data/stacks/proj/app", "proj", ["E=1"], [], true, true⟩ (by decide)⟩

/-- Witness for the C8 theorem at a concrete `keep = true` deploy whose
only external effect is the compose deploy call itself. -/
theorem keep_preserves_workspace_witness :
    ((⟨"https://ex.com/org/app.git", "main", "proj", "/data", "", "",
        ["docker-compose.yml"], ["E=1"], [], true, false, true, true⟩ :
          DeployCommand).Keep = true) ∧
    (Event.composeDeploy ["/data/stacks/proj/app/docker-compose.yml"]
        ⟨"/data/stacks/proj/app", "proj", ["E=1"], [], true, false⟩ ∈
      (DeployCommandRunA
        ⟨"https://ex.com/org/app.git", "main", "proj", "/data", "", "",
          ["docker-compose.yml"], ["E=1"], [], true, false, true, true⟩
        ⟨fun _ => false, fun _ => false, false, false, false, false, false, fun _ => [],
          fun _ => none, false⟩).1) ∧
    touchesWorkspace (Event.composeDeploy ["/data/stacks/proj/app/docker-compose.yml"]
      ⟨"/data/stacks/proj/app", "proj", ["E=1"], [], true, false⟩) = false :=
  ⟨rfl, by decide,
    keep_preserves_workspace.1
      ⟨"https://ex.com/org/app.git", "main", "proj", "/data", "", "",
        ["docker-compose.yml"], ["E=1"], [], true, false, true, true⟩
      ⟨fun _ => false, fun _ => false, false, false, false, false, false, fun _ => [],
        fun _ => none, false⟩ rfl _ (by decide)⟩
